import Mathlib

/-!
Verification of the zxlive editor-panel core (`zxlive/editor_base_panel.py`,
`zxlive/base_panel.py`): the graph data model with its W-pairing invariant,
the editing-policy gesture handlers (`delete_selection`, `add_edge`,
`vert_double_clicked`) and the phase parser `string_to_phase`.

Graph-model operations (`pyzx` graph semantics and the command classes of
`zxlive/commands.py`) are not part of the sources being verified; where a
gesture handler relies on them they are modelled from the specification's
data-model section (pairing between W-input and W-output vertices is an
implicit relation, not a stored edge; `neighbors` counts ordinary edges).
-/

/-- Vertex kinds, as in `pyzx.VertexType` restricted to the kinds the editor
panel offers (`VERTICES` table plus `W_INPUT`, which is only created as the
partner of a `W_OUTPUT`). -/
inductive VertexType where
  | Z
  | X
  | H_BOX
  | BOUNDARY
  | W_INPUT
  | W_OUTPUT
deriving DecidableEq, Repr

/-- Edge kinds, as in the `EDGES` table of the panel (`pyzx.EdgeType.SIMPLE`
and `pyzx.EdgeType.HADAMARD`). -/
inductive EdgeType where
  | SIMPLE
  | HADAMARD
deriving DecidableEq, Repr

/-- Translation of `pyzx.utils.vertex_is_w`: a vertex kind is a W kind iff it
is `W_INPUT` or `W_OUTPUT`. -/
def vertex_is_w (t : VertexType) : Bool :=
  match t with
  | .W_INPUT => true
  | .W_OUTPUT => true
  | _ => false

/-- Modelled from the spec: the Graph Model (the `pyzx` graph object used by
the panel is not among the verified sources).  Vertices are integer handles
with a kind, a phase, a position row, and an integer qubit index; edges are
pairs of handles with an edge kind; the pairing between `W_INPUT` and
`W_OUTPUT` vertices is the relation `wpartner` (implicit, not a stored
edge), which is what `pyzx.utils.get_w_partner` returns. -/
structure GraphT where
  verts : Finset ℕ
  vtype : ℕ → VertexType
  wpartner : ℕ → ℕ
  edges : Finset (ℕ × ℕ × EdgeType)
  phase : ℕ → ℚ
  qubit : ℕ → ℤ

/-- Membership of an ordinary edge between `u` and `v` of kind `k` (edges are
unordered pairs, so either orientation counts). -/
def edgeMem (g : GraphT) (u v : ℕ) (k : EdgeType) : Prop :=
  (u, v, k) ∈ g.edges ∨ (v, u, k) ∈ g.edges

instance (g : GraphT) (u v : ℕ) (k : EdgeType) : Decidable (edgeMem g u v k) := by
  unfold edgeMem
  infer_instance

/-- Modelled from the spec: the ordinary (non-pairing) neighbors of a vertex,
which is what `graph.neighbors` yields under the spec's data model where the
W pairing is not a stored edge. -/
def GraphT.nbrs (g : GraphT) (v : ℕ) : Finset ℕ :=
  ((g.edges.filter (fun e => e.1 = v)).image (fun e => e.2.1)) ∪
    ((g.edges.filter (fun e => e.2.1 = v)).image (fun e => e.1))

/-- Well-pairedness of the W vertices in a graph: every W vertex present has
its partner present, the partner is itself a W vertex, and the pairing is an
involution.  This is the structural invariant of the spec's data model. -/
def wInvariant (g : GraphT) : Prop :=
  ∀ v ∈ g.verts, vertex_is_w (g.vtype v) = true →
    g.wpartner v ∈ g.verts ∧
      vertex_is_w (g.vtype (g.wpartner v)) = true ∧
      g.wpartner (g.wpartner v) = v

instance (g : GraphT) : Decidable (wInvariant g) := by
  unfold wInvariant
  infer_instance

/-- Weak form of well-pairedness: no W vertex is present without its partner
(the property the spec requires to survive every deletion). -/
def wWellFormed (g : GraphT) : Prop :=
  ∀ v ∈ g.verts, vertex_is_w (g.vtype v) = true → g.wpartner v ∈ g.verts

instance (g : GraphT) : Decidable (wWellFormed g) := by
  unfold wWellFormed
  infer_instance

/-- Symmetric statement that `u` and `v` are a paired W couple. -/
def wpaired (g : GraphT) (u v : ℕ) : Prop :=
  vertex_is_w (g.vtype u) = true ∧ vertex_is_w (g.vtype v) = true ∧
    g.wpartner u = v ∧ g.wpartner v = u

instance (g : GraphT) (u v : ℕ) : Decidable (wpaired g u v) := by
  unfold wpaired
  infer_instance

/-- Modelled from the spec: `remove_edges` of the Graph Model removes exactly
the given stored edges. -/
def GraphT.remove_edges (g : GraphT) (es : List (ℕ × ℕ × EdgeType)) : GraphT :=
  { g with edges := g.edges.filter (fun e => e ∉ es) }

/-- Modelled from the spec: `remove_vertices` of the Graph Model removes the
given vertices together with all their incident edges. -/
def GraphT.remove_vertices (g : GraphT) (vs : Finset ℕ) : GraphT :=
  { g with
    verts := g.verts \ vs
    edges := g.edges.filter (fun e => e.1 ∉ vs ∧ e.2.1 ∉ vs) }

/-- Modelled from the spec: `set_qubit` of the Graph Model updates the qubit
index of one vertex and nothing else (`graph.set_qubit` is a `pyzx` call, not
among the verified sources). -/
def GraphT.set_qubit (g : GraphT) (v : ℕ) (n : ℤ) : GraphT :=
  { g with qubit := Function.update g.qubit v n }

/-- Error kind of the Graph Model's `add_edge` (spec §4.3). -/
inductive EdgeErr where
  | invalidEdge
deriving DecidableEq

/-- Modelled from the spec: `add_edge(u, v, kind)` of the Graph Model (§4.3),
which backs the `AddEdge` command of `zxlive/commands.py` (not among the
verified sources).  It fails with `InvalidEdge` when `u = v`, when `u` and
`v` are a W pair, when an ordinary edge of a different kind already joins
them, or when an endpoint is a `W_INPUT` already carrying two ordinary
edges; re-adding an edge of the identical kind is an idempotent no-op. -/
def GraphT.add_edge (g : GraphT) (u v : ℕ) (k : EdgeType) : Except EdgeErr GraphT :=
  if u = v then .error .invalidEdge
  else if wpaired g u v then .error .invalidEdge
  else if edgeMem g u v k then .ok g
  else if edgeMem g u v EdgeType.SIMPLE ∨ edgeMem g u v EdgeType.HADAMARD then
    .error .invalidEdge
  else if (g.vtype u = .W_INPUT ∧ 2 ≤ (g.nbrs u).card) ∨
      (g.vtype v = .W_INPUT ∧ 2 ≤ (g.nbrs v).card) then .error .invalidEdge
  else .ok { g with edges := insert (u, v, k) g.edges }

/-- Description of an `AddEdge` command as pushed by the edge gesture: the
two endpoints and the currently selected edge kind. -/
structure AddEdgeCmd where
  u : ℕ
  v : ℕ
  ety : EdgeType
deriving DecidableEq

/-- Translation of `EditorBasePanel.add_edge` (the edge-gesture handler): it
silently returns without a command when `u` is a W vertex whose partner is
`v`, or when either endpoint is a `W_INPUT` whose neighbor count is already
at least 2; otherwise it pushes one `AddEdge(u, v, curr_ety)` command. -/
def EditorBasePanel.add_edge (g : GraphT) (u v : ℕ) (curr_ety : EdgeType) :
    Option AddEdgeCmd :=
  if vertex_is_w (g.vtype u) = true ∧ g.wpartner u = v then none
  else if (g.vtype u = .W_INPUT ∧ 2 ≤ (g.nbrs u).card) ∨
      (g.vtype v = .W_INPUT ∧ 2 ≤ (g.nbrs v).card) then none
  else some ⟨u, v, curr_ety⟩

/-- Command pushed by `delete_selection`: either a whole-graph replacement
(`SetGraph`) or an incremental update (`UpdateGraph`), each carrying the new
graph. -/
inductive DeleteCmd where
  | setGraph (g : GraphT)
  | updateGraph (g : GraphT)

/-- Graph carried by a `delete_selection` command. -/
def DeleteCmd.graph : DeleteCmd → GraphT
  | .setGraph g => g
  | .updateGraph g => g

/-- Translation of the `rem_vertices` list built by
`EditorBasePanel.delete_selection`: the selection followed by the W partner
of every selected W vertex. -/
def rem_vertices (g : GraphT) (sel : List ℕ) : List ℕ :=
  sel ++ (sel.filter (fun v => vertex_is_w (g.vtype v))).map g.wpartner

/-- Graph produced by `delete_selection`: the selected edges are removed
first, then the deduplicated removal list. -/
def del_graph (g : GraphT) (sel : List ℕ) (selEdges : List (ℕ × ℕ × EdgeType)) :
    GraphT :=
  (g.remove_edges selEdges).remove_vertices (rem_vertices g sel).toFinset

/-- Translation of `EditorBasePanel.delete_selection`: a no-op when both the
removal list and the edge selection are empty, otherwise one command —
`SetGraph` when the deduplicated removal list has more than 128 vertices,
`UpdateGraph` otherwise. -/
def EditorBasePanel.delete_selection (g : GraphT) (sel : List ℕ)
    (selEdges : List (ℕ × ℕ × EdgeType)) : Option DeleteCmd :=
  if rem_vertices g sel = [] ∧ selEdges = [] then none
  else some
    (if 128 < (rem_vertices g sel).toFinset.card then
      DeleteCmd.setGraph (del_graph g sel selEdges)
    else DeleteCmd.updateGraph (del_graph g sel selEdges))

/-- Selection closed under W-partnership, as the spec words it: the selected
vertices together with the partner of every selected W vertex. -/
def wClosure (g : GraphT) (sel : List ℕ) : Finset ℕ :=
  sel.toFinset ∪
    (sel.toFinset.filter (fun v => vertex_is_w (g.vtype v) = true)).image g.wpartner

/-- Description of a `ChangePhase` command as pushed by the double-click
gesture; `α` is the type of parsed phase values. -/
structure ChangePhaseCmd (α : Type) where
  v : ℕ
  p : α

/-- List-level character membership test (Python's `in` on the token). -/
def pyContains (c0 : Char) : List Char → Bool
  | [] => false
  | c :: rest => if c = c0 then true else pyContains c0 rest

/-- Lower-casing of one character as Python's `str.lower` acts on the
characters occurring here (ASCII letters, plus the capital turn symbol). -/
def pyLowerChar (c : Char) : Char :=
  if 'A' ≤ c ∧ c ≤ 'Z' then Char.ofNat (c.toNat + 32)
  else if c = 'Π' then 'π' else c

/-- Removal of every occurrence of one character (Python `str.replace` with
an empty replacement and a single-character pattern). -/
def removeChar (c0 : Char) : List Char → List Char
  | [] => []
  | c :: rest => if c = c0 then removeChar c0 rest else c :: removeChar c0 rest

/-- Non-overlapping left-to-right removal of the substring `pi` (Python
`str.replace("pi", "")`). -/
def stripPi : List Char → List Char
  | [] => []
  | 'p' :: 'i' :: rest => stripPi rest
  | c :: rest => c :: stripPi rest

/-- Normalisation performed by `string_to_phase` before branching: lower-case,
drop spaces, drop the turn symbol, drop its textual alias. -/
def normalizeTok (cs : List Char) : List Char :=
  stripPi (removeChar 'π' (removeChar ' ' (cs.map pyLowerChar)))

/-- Characters stripped by Python's `str.strip` and by `int`/`float` on
string arguments. -/
def isPySpace (c : Char) : Bool :=
  c == ' ' || c == '\t' || c == '\n' || c == '\x0d' || c == '\x0b' || c == '\x0c'

/-- Python whitespace stripping at both ends. -/
def pyStrip (cs : List Char) : List Char :=
  ((cs.dropWhile isPySpace).reverse.dropWhile isPySpace).reverse

/-- Value of one decimal digit character. -/
def digitVal (c : Char) : Option ℕ :=
  if '0' ≤ c ∧ c ≤ '9' then some (c.toNat - 48) else none

/-- Continuation of a digit group after at least one digit has been read;
accepts single underscores between digits, as Python numeric literals do. -/
def rdCont : List Char → Option (List ℕ)
  | [] => some []
  | '_' :: rest =>
    match rest with
    | c :: rest2 =>
      match digitVal c with
      | some d => (rdCont rest2).map (fun l => d :: l)
      | none => none
    | [] => none
  | c :: rest =>
    match digitVal c with
    | some d => (rdCont rest).map (fun l => d :: l)
    | none => none

/-- Parse of a non-empty digit group (digits with optional single
underscores between them), as accepted inside Python `int` and `float`
string conversion. -/
def readDigits : List Char → Option (List ℕ)
  | [] => none
  | c :: rest =>
    match digitVal c with
    | some d => (rdCont rest).map (fun l => d :: l)
    | none => none

/-- Numeric value of a digit list. -/
def digitsVal (l : List ℕ) : ℕ :=
  l.foldl (fun a d => 10 * a + d) 0

/-- Digit group preceded by an optional sign. -/
def pySignedDigits (cs : List Char) : Option ℤ :=
  match cs with
  | '+' :: rest => (readDigits rest).map (fun l => (digitsVal l : ℤ))
  | '-' :: rest => (readDigits rest).map (fun l => -(digitsVal l : ℤ))
  | rest => (readDigits rest).map (fun l => (digitsVal l : ℤ))

/-- Translation of Python `int(s)` for base-10 string input: strip
whitespace, then an optional sign and a digit group. -/
def pyIntList (cs : List Char) : Option ℤ :=
  pySignedDigits (pyStrip cs)

/-- Outcome of Python `float(s)`: a finite binary64 value (held as the exact
rational it denotes), an infinity, or a NaN. -/
inductive PyFloat where
  | finite (q : ℚ)
  | inf
  | neginf
  | nan
deriving DecidableEq

/-- Integer power of two as a rational, written so that it evaluates by
kernel reduction. -/
def pow2z (e : ℤ) : ℚ :=
  match e with
  | .ofNat n => ((2 ^ n : ℕ) : ℚ)
  | .negSucc n => 1 / ((2 ^ (n + 1) : ℕ) : ℚ)

/-- Decision of `2 ^ e ≤ num / den` for natural `num`, `den` in pure natural
arithmetic. -/
def pow2le (num den : ℕ) (e : ℤ) : Bool :=
  match e with
  | .ofNat k => den * 2 ^ k ≤ num
  | .negSucc k => den ≤ num * 2 ^ (k + 1)

/-- Round-half-to-even of `N / D` (with `D` positive) to a natural number. -/
def rndNatHalfEven (N D : ℕ) : ℕ :=
  if 2 * (N % D) < D then N / D
  else if D < 2 * (N % D) then N / D + 1
  else if N / D % 2 = 0 then N / D else N / D + 1

/-- Fuel-bounded upward search for the binary exponent of `num / den`. -/
def expUpN : ℕ → ℕ → ℕ → ℤ → ℤ
  | 0, _, _, e => e
  | fuel + 1, num, den, e =>
    if pow2le num den (e + 1) then expUpN fuel num den (e + 1) else e

/-- Fuel-bounded downward search for the binary exponent of `num / den`. -/
def expDownN : ℕ → ℕ → ℕ → ℤ → ℤ
  | 0, _, _, e => e
  | fuel + 1, num, den, e =>
    if pow2le num den e then e else expDownN fuel num den (e - 1)

/-- Binary exponent of the positive rational `num / den`: the `e` with
`2 ^ e ≤ num / den < 2 ^ (e + 1)` (the fuel covers every exponent relevant
to binary64; outside that range the caller's clamping makes the result
irrelevant). -/
def binExpN (num den : ℕ) : ℤ :=
  expDownN 1200 num den (expUpN 1200 num den 0)

/-- Rounding of the exact decimal value `±mant · 10 ^ dexp` to the nearest
IEEE-754 binary64 value, ties to even, with overflow to infinity and
gradual underflow — the value `float(s)` denotes once the decimal literal
`s` has been read exactly.  Everything is computed in integer arithmetic;
only the final finite value is assembled as a rational. -/
def roundDouble (neg : Bool) (mant : ℕ) (dexp : ℤ) : PyFloat :=
  if mant = 0 then .finite 0
  else
    let num : ℕ := match dexp with | .ofNat k => mant * 10 ^ k | .negSucc _ => mant
    let den : ℕ := match dexp with | .ofNat _ => 1 | .negSucc k => 10 ^ (k + 1)
    if den * 2 ^ 1024 ≤ num then (if neg then .neginf else .inf)
    else
      let sh : ℤ := max (binExpN num den - 52) (-1074)
      let N : ℕ := match sh with | .ofNat _ => num | .negSucc k => num * 2 ^ (k + 1)
      let D : ℕ := match sh with | .ofNat k => den * 2 ^ k | .negSucc _ => den
      let m : ℕ := rndNatHalfEven N D
      if 2 ^ (1024 - sh).toNat ≤ m then (if neg then .neginf else .inf)
      else
        let v : ℚ := (m : ℚ) * pow2z sh
        .finite (if neg then -v else v)

/-- Split at the first occurrence of a character, keeping the remainder
whole (the remainder is not searched again). -/
def breakAt (c0 : Char) : List Char → List Char × Option (List Char)
  | [] => ([], none)
  | c :: rest =>
    if c = c0 then ([], some rest)
    else
      match breakAt c0 rest with
      | (a, r) => (c :: a, r)

/-- Body of Python `float(s)` after the sign: either an infinity/NaN literal
or a decimal literal (integer part, optional fraction, optional exponent),
whose exact decimal value is rounded to binary64. -/
def pyFloatCore (neg : Bool) (rest : List Char) : Option PyFloat :=
  if rest = ['i', 'n', 'f'] ∨ rest = ['i', 'n', 'f', 'i', 'n', 'i', 't', 'y'] then
    some (if neg then .neginf else .inf)
  else if rest = ['n', 'a', 'n'] then some .nan
  else
    match breakAt 'e' rest with
    | (mant, ex) =>
      match breakAt '.' mant with
      | (ip, fpOpt) =>
        let fp := fpOpt.getD []
        let ipd : Option (List ℕ) := if ip = [] then some [] else readDigits ip
        let fpd : Option (List ℕ) := if fp = [] then some [] else readDigits fp
        let exd : Option ℤ :=
          match ex with
          | none => some 0
          | some ecs => pySignedDigits ecs
        match ipd, fpd, exd with
        | some il, some fl, some ev =>
          if il = [] ∧ fl = [] then none
          else some (roundDouble neg (digitsVal (il ++ fl)) (ev - fl.length))
        | _, _, _ => none

/-- Translation of Python `float(s)` on strings: whitespace stripping and an
optional sign, then `pyFloatCore`. -/
def pyFloatList (cs : List Char) : Option PyFloat :=
  match pyStrip cs with
  | '+' :: rest => pyFloatCore false rest
  | '-' :: rest => pyFloatCore true rest
  | rest => pyFloatCore false rest

/-- Translation of `s.split("/", 2)`: at most two splits, the remainder kept
whole in the last part. -/
def splitSlash2 (cs : List Char) : List (List Char) :=
  match breakAt '/' cs with
  | (a, none) => [a]
  | (a, some r) =>
    match breakAt '/' r with
    | (b, none) => [a, b]
    | (b, some r2) => [a, b, r2]

/-- Outcome of `string_to_phase`: an exact rational (`Fraction`), a
delegation of the original string to the external symbolic parser (the
`except ValueError: return sympify(string)` fallback), or an uncaught
exception (`OverflowError` from `Fraction` of an infinite float,
`ZeroDivisionError` from a zero denominator). -/
inductive PhaseResult where
  | rat (q : ℚ)
  | sympified (s : String)
  | overflowError
  | zeroDivisionError
deriving DecidableEq

/-- Whether `string_to_phase` raised an exception rather than returning. -/
def PhaseResult.isRaise : PhaseResult → Bool
  | .overflowError => true
  | .zeroDivisionError => true
  | _ => false

/-- Body of `string_to_phase` acting on the normalised token `s`, keeping the
original string `orig` for the `sympify` fallback. -/
def stringToPhaseCore (s : List Char) (orig : String) : PhaseResult :=
  if pyContains '.' s = true ∨ pyContains 'e' s = true then
    match pyFloatList s with
    | none => .sympified orig
    | some (.finite q) => .rat q
    | some .nan => .sympified orig
    | some .inf => .overflowError
    | some .neginf => .overflowError
  else if pyContains '/' s = true then
    match splitSlash2 s with
    | [a, b] =>
      if a = [] then
        match pyIntList b with
        | none => .sympified orig
        | some bi => if bi = 0 then .zeroDivisionError else .rat (1 / (bi : ℚ))
      else
        match pyIntList (if a = ['-'] then ['-', '1'] else a), pyIntList b with
        | some ai, some bi =>
          if bi = 0 then .zeroDivisionError else .rat ((ai : ℚ) / (bi : ℚ))
        | _, _ => .sympified orig
    | _ => .sympified orig
  else
    match pyIntList s with
    | some n => .rat (n : ℚ)
    | none => .sympified orig

/-- Translation of `string_to_phase` (`editor_base_panel.py`): the empty
string is zero; otherwise the token is lower-cased, spaces and the turn
symbol and its alias are stripped, and the result is read as a float
literal, a fraction `a/b`, or an integer, falling back to the external
symbolic parser on `ValueError`. -/
def string_to_phase (s : String) : PhaseResult :=
  if s.data = [] then .rat 0
  else stringToPhaseCore (normalizeTok s.data) s

/-- Translation of `EditorBasePanel.vert_double_clicked`.  The dialog result
is the pair `(text, ok)` returned by the input dialog (`("", false)` on
cancellation); `parseFn` abstracts `parse_poly.parse` with the panel's
variable resolver, `none` standing for a raised `ParseError`.  The result is
the command pushed (if any), whether an error dialog was shown, and the
graph (mutated directly only in the boundary branch). -/
def EditorBasePanel.vert_double_clicked {α : Type} (g : GraphT) (v : ℕ)
    (dialog : String × Bool) (parseFn : String → Option α) :
    Option (ChangePhaseCmd α) × Bool × GraphT :=
  if g.vtype v = .BOUNDARY then
    match pyIntList dialog.1.data with
    | some n => (none, false, g.set_qubit v n)
    | none => (none, true, g)
  else if vertex_is_w (g.vtype v) = true then (none, false, g)
  else if dialog.2 = false then (none, false, g)
  else
    match parseFn dialog.1 with
    | none => (none, true, g)
    | some p => (some ⟨v, p⟩, false, g)


set_option maxRecDepth 16384

/-- Helper: a list containing no occurrence of `c0` is returned whole by
`breakAt`. -/
theorem breakAt_of_not_contains (c0 : Char) (cs : List Char)
    (h : pyContains c0 cs = false) : breakAt c0 cs = (cs, none) := by
  induction cs with
  | nil => rfl
  | cons c rest ih =>
    by_cases hc : c = c0
    · simp [pyContains, hc] at h
    · simp only [pyContains, if_neg hc] at h
      simp [breakAt, hc, ih h]

/-- C2: the phase parser maps the empty string to zero, fraction tokens to
the exact rationals they denote (a bare numerator of `-` meaning `-1` and a
missing numerator meaning `1 / b` for any integer denominator token), and
strips the turn symbol and its textual alias before numeric
interpretation. -/
theorem C2_string_to_phase_basic_values :
    string_to_phase "" = PhaseResult.rat 0 ∧
    string_to_phase "1/2" = PhaseResult.rat (1 / 2) ∧
    string_to_phase "-/3" = PhaseResult.rat (-1 / 3) ∧
    string_to_phase "π/2" = PhaseResult.rat (1 / 2) ∧
    string_to_phase "pi/2" = PhaseResult.rat (1 / 2) ∧
    string_to_phase "3Pi/2" = PhaseResult.rat (3 / 2) ∧
    ∀ (cs : List Char) (n : ℤ),
      normalizeTok ('/' :: cs) = '/' :: cs →
      pyContains '.' cs = false →
      pyContains 'e' cs = false →
      pyContains '/' cs = false →
      pyIntList cs = some n →
      n ≠ 0 →
      string_to_phase (String.mk ('/' :: cs)) = PhaseResult.rat (1 / (n : ℚ)) := by
  refine ⟨rfl, rfl, rfl, rfl, rfl, rfl, ?_⟩
  intro cs n hnorm hd he hs hint hn
  have hdata : (String.mk ('/' :: cs)).data = '/' :: cs := rfl
  unfold string_to_phase
  rw [hdata, if_neg (List.cons_ne_nil _ _), hnorm]
  have h1 : pyContains '.' ('/' :: cs) = false := by simp [pyContains, hd]
  have h2 : pyContains 'e' ('/' :: cs) = false := by simp [pyContains, he]
  have h3 : pyContains '/' ('/' :: cs) = true := by simp [pyContains]
  have hb1 : breakAt '/' ('/' :: cs) = ([], some cs) := by simp [breakAt]
  have h4 : splitSlash2 ('/' :: cs) = [[], cs] := by
    unfold splitSlash2
    rw [hb1]
    dsimp only
    rw [breakAt_of_not_contains '/' cs hs]
  unfold stringToPhaseCore
  rw [if_neg (by simp [h1, h2]), if_pos h3, h4]
  dsimp only
  rw [if_pos rfl, hint]
  dsimp only
  rw [if_neg hn]

/-- C2 witness: the denominator-only clause applied to the token `/7`. -/
theorem C2_string_to_phase_basic_values_witness :
    string_to_phase (String.mk ['/', '7']) = PhaseResult.rat (1 / ((7 : ℤ) : ℚ)) :=
  C2_string_to_phase_basic_values.2.2.2.2.2.2 ['7'] 7 (by decide) (by decide)
    (by decide) (by decide) (by decide) (by decide)

/-- C3 counterexample: malformed numeric input does not make
`string_to_phase` fail — the identifier `abc` and the unbalanced fraction
`1/2/3` are both delegated whole to the external symbolic parser, and
neither raises. -/
theorem C3_counterexample_no_parse_error :
    string_to_phase "abc" = PhaseResult.sympified "abc" ∧
    (string_to_phase "abc").isRaise = false ∧
    string_to_phase "1/2/3" = PhaseResult.sympified "1/2/3" ∧
    (string_to_phase "1/2/3").isRaise = false :=
  ⟨rfl, rfl, rfl, rfl⟩

/-- C3 (amended): input rejected by the numeric grammar is not failed with a
parse error; the original string is handed to the symbolic fallback, both
when the token has no numeric structure at all and when it is an unbalanced
fraction (two or more slashes). -/
theorem C3_string_to_phase_fallback :
    (∀ s : String, s.data ≠ [] →
      pyContains '.' (normalizeTok s.data) = false →
      pyContains 'e' (normalizeTok s.data) = false →
      pyContains '/' (normalizeTok s.data) = false →
      pyIntList (normalizeTok s.data) = none →
      string_to_phase s = PhaseResult.sympified s) ∧
    (∀ s : String, s.data ≠ [] →
      pyContains '.' (normalizeTok s.data) = false →
      pyContains 'e' (normalizeTok s.data) = false →
      (splitSlash2 (normalizeTok s.data)).length = 3 →
      string_to_phase s = PhaseResult.sympified s) := by
  constructor
  · intro s hne hd he hs hint
    unfold string_to_phase
    rw [if_neg hne]
    unfold stringToPhaseCore
    rw [if_neg (by simp [hd, he]), if_neg (by simp [hs]), hint]
  · intro s hne hd he hlen
    have hs : pyContains '/' (normalizeTok s.data) = true := by
      by_contra hcon
      have hf : pyContains '/' (normalizeTok s.data) = false := by
        revert hcon
        cases pyContains '/' (normalizeTok s.data) <;> simp
      have hone : splitSlash2 (normalizeTok s.data) = [normalizeTok s.data] := by
        unfold splitSlash2
        rw [breakAt_of_not_contains _ _ hf]
      rw [hone] at hlen
      simp at hlen
    obtain ⟨a, b, c, habc⟩ :
        ∃ a b c, splitSlash2 (normalizeTok s.data) = [a, b, c] := by
      rcases hsp : splitSlash2 (normalizeTok s.data) with _ | ⟨a, _ | ⟨b, _ | ⟨c, tl⟩⟩⟩ <;>
        rw [hsp] at hlen <;> simp_all
    unfold string_to_phase
    rw [if_neg hne]
    unfold stringToPhaseCore
    rw [if_neg (by simp [hd, he]), if_pos hs, habc]

/-- C3 amended-theorem witness: the garbage clause applied to `xyz`. -/
theorem C3_string_to_phase_fallback_witness :
    string_to_phase "xyz" = PhaseResult.sympified "xyz" :=
  C3_string_to_phase_fallback.1 "xyz" (by decide) (by decide) (by decide)
    (by decide) (by decide)


/-- C10: the float branch of the phase parser goes through an IEEE-754
binary64 value, so `0.1` parses to the exact rational of the nearest
representable double — `3602879701896397 / 2 ^ 55` — and not to `1 / 10`;
among all dyadic rationals `m * 2 ^ e` with a 53-bit significand, none is
closer to `1 / 10` than the parsed value. -/
theorem C10_string_to_phase_double_rounding :
    string_to_phase "0.1" = PhaseResult.rat (3602879701896397 / 36028797018963968) ∧
    (3602879701896397 : ℚ) / 36028797018963968 ≠ 1 / 10 ∧
    ∀ m e : ℤ, |m| ≤ 2 ^ 53 →
      |(1 : ℚ) / 10 - 3602879701896397 / 36028797018963968| ≤
        |(1 : ℚ) / 10 - (m : ℚ) * 2 ^ e| := by
  refine ⟨?_, by norm_num, ?_⟩
  · have h1 : string_to_phase "0.1" = .rat ((7205759403792794 : ℚ) * pow2z (-56)) := rfl
    have hp : pow2z (-56) = 1 / ((72057594037927936 : ℕ) : ℚ) := rfl
    rw [h1, hp]
    norm_num
  · intro m e hm
    have hδ : |(1 : ℚ) / 10 - 3602879701896397 / 36028797018963968| =
        1 / 180143985094819840 := by
      have h : (1 : ℚ) / 10 - 3602879701896397 / 36028797018963968 =
          -(1 / 180143985094819840) := by norm_num
      rw [h, abs_neg, abs_of_pos (by norm_num)]
    rw [hδ]
    have h2v : (2 : ℚ) ^ (-56 : ℤ) = (72057594037927936 : ℚ)⁻¹ := by
      rw [show (-56 : ℤ) = -((56 : ℕ) : ℤ) from rfl, zpow_neg, zpow_natCast]
      norm_num
    by_cases hcase : -56 ≤ e
    · obtain ⟨d, hd⟩ : ∃ d : ℕ, e = (d : ℤ) - 56 := ⟨(e + 56).toNat, by omega⟩
      subst hd
      have hme : (m : ℚ) * 2 ^ ((d : ℤ) - 56) =
          ((m * 2 ^ d : ℤ) : ℚ) * 2 ^ (-56 : ℤ) := by
        rw [sub_eq_add_neg, zpow_add₀ (two_ne_zero), zpow_natCast]
        push_cast
        ring
      rw [hme, h2v]
      have hval : (1 : ℚ) / 10 - ((m * 2 ^ d : ℤ) : ℚ) * (72057594037927936 : ℚ)⁻¹ =
          ((72057594037927936 - 10 * (m * 2 ^ d) : ℤ) : ℚ) / (10 * 72057594037927936) := by
        push_cast
        field_simp
      rw [hval, abs_div,
        abs_of_pos (show (0 : ℚ) < 10 * 72057594037927936 by norm_num)]
      have hmod : (4 : ℤ) ≤ |72057594037927936 - 10 * (m * 2 ^ d)| := by
        have h9 : 4 ≤ 72057594037927936 - 10 * (m * 2 ^ d) ∨
            72057594037927936 - 10 * (m * 2 ^ d) ≤ -4 := by omega
        rcases h9 with h | h
        · exact le_abs.mpr (Or.inl h)
        · exact le_abs.mpr (Or.inr (by linarith))
      have hmodq : (4 : ℚ) ≤ |((72057594037927936 - 10 * (m * 2 ^ d) : ℤ) : ℚ)| := by
        rw [← Int.cast_abs]
        exact_mod_cast hmod
      calc (1 : ℚ) / 180143985094819840 = 4 / (10 * 72057594037927936) := by norm_num
        _ ≤ |((72057594037927936 - 10 * (m * 2 ^ d) : ℤ) : ℚ)| /
              (10 * 72057594037927936) :=
          (div_le_div_iff_of_pos_right (by norm_num)).mpr hmodq
    · push_neg at hcase
      have hx : |(m : ℚ) * 2 ^ e| ≤ 1 / 16 := by
        rw [abs_mul]
        have h1 : |(m : ℚ)| ≤ 2 ^ 53 := by
          rw [← Int.cast_abs]
          exact_mod_cast hm
        have h2 : |(2 : ℚ) ^ e| ≤ 2 ^ (-57 : ℤ) := by
          rw [abs_of_pos (zpow_pos (by norm_num) e)]
          exact zpow_le_zpow_right₀ (by norm_num) (by omega)
        calc |(m : ℚ)| * |(2 : ℚ) ^ e| ≤ 2 ^ 53 * 2 ^ (-57 : ℤ) :=
              mul_le_mul h1 h2 (abs_nonneg _) (by positivity)
          _ = 1 / 16 := by
              rw [show ((2 : ℚ) ^ (53 : ℕ)) = (2 : ℚ) ^ ((53 : ℕ) : ℤ) from
                  (zpow_natCast 2 53).symm, ← zpow_add₀ (two_ne_zero),
                show ((53 : ℕ) : ℤ) + (-57 : ℤ) = -((4 : ℕ) : ℤ) from rfl,
                zpow_neg, zpow_natCast]
              norm_num
      have hlow : 1 / 10 - |(m : ℚ) * 2 ^ e| ≤ |(1 : ℚ) / 10 - (m : ℚ) * 2 ^ e| := by
        have h := abs_sub_abs_le_abs_sub ((1 : ℚ) / 10) ((m : ℚ) * 2 ^ e)
        rwa [abs_of_pos (by norm_num : (0 : ℚ) < 1 / 10)] at h
      linarith

/-- C10 witness: the nearness clause applied to the dyadic rational
`1 * 2 ^ 0`. -/
theorem C10_string_to_phase_double_rounding_witness :
    |(1 : ℚ) / 10 - 3602879701896397 / 36028797018963968| ≤
      |(1 : ℚ) / 10 - ((1 : ℤ) : ℚ) * 2 ^ (0 : ℤ)| :=
  C10_string_to_phase_double_rounding.2.2 1 0 (by norm_num)


/-- Helper: the deduplicated removal list of `delete_selection` is exactly
the selection closed under W-partnership. -/
theorem rem_vertices_toFinset (g : GraphT) (sel : List ℕ) :
    (rem_vertices g sel).toFinset = wClosure g sel := by
  ext x
  simp [rem_vertices, wClosure, List.mem_filter]

/-- Helper: the removal list is empty exactly when the closure is empty. -/
theorem rem_vertices_eq_nil_iff (g : GraphT) (sel : List ℕ) :
    rem_vertices g sel = [] ↔ wClosure g sel = ∅ := by
  constructor
  · intro h
    rw [← rem_vertices_toFinset, h]
    rfl
  · intro h
    have h2 : (rem_vertices g sel).toFinset = ∅ := by
      rw [rem_vertices_toFinset, h]
    simpa using h2

/-- C6: `delete_selection` is a no-op exactly when both the vertex-removal
closure and the edge selection are empty; otherwise it pushes `SetGraph`
when the closure has more than 128 vertices and `UpdateGraph` otherwise. -/
theorem C6_delete_selection_command_choice (g : GraphT) (sel : List ℕ)
    (selEdges : List (ℕ × ℕ × EdgeType)) :
    (EditorBasePanel.delete_selection g sel selEdges = none ↔
      (wClosure g sel = ∅ ∧ selEdges = [])) ∧
    (EditorBasePanel.delete_selection g sel selEdges = none ∨
      EditorBasePanel.delete_selection g sel selEdges = some
        ((if 128 < (wClosure g sel).card then DeleteCmd.setGraph
          else DeleteCmd.updateGraph) (del_graph g sel selEdges))) := by
  constructor
  · unfold EditorBasePanel.delete_selection
    split_ifs with h
    · simp [rem_vertices_eq_nil_iff g sel |>.mp h.1, h.2]
    · constructor
      · intro hcon
        exact hcon.elim
      · rintro ⟨hc, hse⟩
        exact absurd ⟨(rem_vertices_eq_nil_iff g sel).mpr hc, hse⟩ h
  · unfold EditorBasePanel.delete_selection
    rw [rem_vertices_toFinset]
    split_ifs with h h2
    · exact Or.inl rfl
    · exact Or.inr rfl
    · exact Or.inr rfl

/-- C4: the edge gesture rejects silently exactly when the two vertices are
a paired W couple or either endpoint is a `W_INPUT` already carrying two
ordinary edges, and in every other case it pushes exactly one `AddEdge`
command with the currently selected edge kind. -/
theorem C4_add_edge_gesture_policy (g : GraphT) (u v : ℕ) (ety : EdgeType)
    (hinv : wInvariant g) (hu : u ∈ g.verts) :
    (EditorBasePanel.add_edge g u v ety = none ↔
      (wpaired g u v ∨ (g.vtype u = .W_INPUT ∧ 2 ≤ (g.nbrs u).card) ∨
        (g.vtype v = .W_INPUT ∧ 2 ≤ (g.nbrs v).card))) ∧
    (EditorBasePanel.add_edge g u v ety = none ∨
      EditorBasePanel.add_edge g u v ety = some ⟨u, v, ety⟩) := by
  unfold EditorBasePanel.add_edge
  split_ifs with h1 h2
  · refine ⟨⟨fun _ => ?_, fun _ => rfl⟩, Or.inl rfl⟩
    obtain ⟨hw, hp⟩ := h1
    obtain ⟨_, hw2, hpp⟩ := hinv u hu hw
    rw [hp] at hw2 hpp
    exact Or.inl ⟨hw, hw2, hp, hpp⟩
  · exact ⟨⟨fun _ => Or.inr h2, fun _ => rfl⟩, Or.inl rfl⟩
  · refine ⟨⟨fun hcon => hcon.elim, fun hr => ?_⟩, Or.inr rfl⟩
    rcases hr with hw | hd | hd
    · exact absurd ⟨hw.1, hw.2.2.1⟩ h1
    · exact absurd (Or.inl hd) h2
    · exact absurd (Or.inr hd) h2

/-- C5: re-adding an edge of the identical kind is an idempotent no-op (the
second application returns the same graph, so the edge set and its size are
unchanged), while adding an edge of a different kind between already
connected vertices is rejected with `InvalidEdge` and changes nothing. -/
theorem C5_add_edge_idempotent_and_kind_conflict :
    (∀ (g g1 : GraphT) (u v : ℕ) (k : EdgeType),
      GraphT.add_edge g u v k = Except.ok g1 →
      GraphT.add_edge g1 u v k = Except.ok g1) ∧
    (∀ (g : GraphT) (u v : ℕ) (k k' : EdgeType), k' ≠ k →
      edgeMem g u v k → ¬ edgeMem g u v k' →
      GraphT.add_edge g u v k' = Except.error EdgeErr.invalidEdge) := by
  constructor
  · intro g g1 u v k h
    unfold GraphT.add_edge at h
    split_ifs at h with h1 h2 h3 h4 h5
    · cases h
      unfold GraphT.add_edge
      rw [if_neg h1, if_neg h2, if_pos h3]
    · cases h
      have h2b : ¬ wpaired { g with edges := insert (u, v, k) g.edges } u v := h2
      have h3b : edgeMem { g with edges := insert (u, v, k) g.edges } u v k :=
        Or.inl (Finset.mem_insert_self _ _)
      unfold GraphT.add_edge
      rw [if_neg h1, if_neg h2b, if_pos h3b]
  · intro g u v k k' hne hk hnk
    unfold GraphT.add_edge
    split_ifs with h1 h2 h3 h4 <;> try rfl
    cases k
    · exact absurd (Or.inl hk) h3
    · exact absurd (Or.inr hk) h3


/-- C1: the vertices removed by `delete_selection` are exactly the selection
closed under W-partnership, and under the pairing invariant the resulting
graph contains no W vertex without its pair. -/
theorem C1_delete_selection_w_closure (g : GraphT) (sel : List ℕ)
    (selEdges : List (ℕ × ℕ × EdgeType)) (cmd : DeleteCmd)
    (hinv : wInvariant g) (hsel : ∀ v ∈ sel, v ∈ g.verts)
    (hrun : EditorBasePanel.delete_selection g sel selEdges = some cmd) :
    (rem_vertices g sel).toFinset = wClosure g sel ∧
    cmd.graph.verts = g.verts \ wClosure g sel ∧
    wWellFormed cmd.graph := by
  have hset := rem_vertices_toFinset g sel
  have hgraph : cmd.graph = del_graph g sel selEdges := by
    unfold EditorBasePanel.delete_selection at hrun
    split_ifs at hrun with h1 h2 <;> cases hrun <;> rfl
  have hverts : cmd.graph.verts = g.verts \ wClosure g sel := by
    rw [hgraph]
    have h : (del_graph g sel selEdges).verts =
        g.verts \ (rem_vertices g sel).toFinset := rfl
    rw [h, hset]
  have htype : cmd.graph.vtype = g.vtype := by rw [hgraph]; rfl
  have hpart : cmd.graph.wpartner = g.wpartner := by rw [hgraph]; rfl
  refine ⟨hset, hverts, ?_⟩
  intro v hv hw
  rw [hverts] at hv
  rw [htype] at hw
  rw [hverts, hpart]
  have hvg : v ∈ g.verts := (Finset.mem_sdiff.mp hv).1
  have hvnc : v ∉ wClosure g sel := (Finset.mem_sdiff.mp hv).2
  obtain ⟨hpg, hpw, hpp⟩ := hinv v hvg hw
  refine Finset.mem_sdiff.mpr ⟨hpg, ?_⟩
  intro hpc
  rcases Finset.mem_union.mp hpc with hsel1 | himg
  · apply hvnc
    apply Finset.mem_union_right
    exact Finset.mem_image.mpr ⟨g.wpartner v, Finset.mem_filter.mpr ⟨hsel1, hpw⟩, hpp⟩
  · obtain ⟨s, hsf, hseq⟩ := Finset.mem_image.mp himg
    obtain ⟨hsSel, hsW⟩ := Finset.mem_filter.mp hsf
    have hsg : s ∈ g.verts := hsel s (List.mem_toFinset.mp hsSel)
    obtain ⟨_, _, hss⟩ := hinv s hsg hsW
    have hvs : v = s := by
      have h := congrArg g.wpartner hseq
      rw [hss, hpp] at h
      exact h.symm
    exact hvnc (Finset.mem_union_left _ (by rw [hvs]; exact hsSel))

/-- Example graph for C1: a W pair `0, 1` and a plain Z vertex `2`. -/
def gC1 : GraphT where
  verts := {0, 1, 2}
  vtype := fun v => if v = 0 then .W_INPUT else if v = 1 then .W_OUTPUT else .Z
  wpartner := fun v => if v = 0 then 1 else if v = 1 then 0 else v
  edges := ∅
  phase := fun _ => 0
  qubit := fun _ => 0

/-- C1 witness: deleting the selection `[0]` (one half of the W pair) on the
example graph removes both halves and leaves a well-paired graph. -/
theorem C1_delete_selection_w_closure_witness :
    (rem_vertices gC1 [0]).toFinset = wClosure gC1 [0] ∧
    (DeleteCmd.updateGraph (del_graph gC1 [0] [])).graph.verts =
      gC1.verts \ wClosure gC1 [0] ∧
    wWellFormed (DeleteCmd.updateGraph (del_graph gC1 [0] [])).graph :=
  C1_delete_selection_w_closure gC1 [0] []
    (DeleteCmd.updateGraph (del_graph gC1 [0] [])) (by decide) (by decide) rfl

/-- Example graph for C4: two plain Z vertices. -/
def gC4 : GraphT where
  verts := {0, 1}
  vtype := fun _ => .Z
  wpartner := fun v => v
  edges := ∅
  phase := fun _ => 0
  qubit := fun _ => 0

/-- C4 witness: on the plain example graph the gesture for `(0, 1)` is not
rejected and pushes the `AddEdge` command with the selected kind. -/
theorem C4_add_edge_gesture_policy_witness :
    (EditorBasePanel.add_edge gC4 0 1 EdgeType.SIMPLE = none ↔
      (wpaired gC4 0 1 ∨ (gC4.vtype 0 = .W_INPUT ∧ 2 ≤ (gC4.nbrs 0).card) ∨
        (gC4.vtype 1 = .W_INPUT ∧ 2 ≤ (gC4.nbrs 1).card))) ∧
    (EditorBasePanel.add_edge gC4 0 1 EdgeType.SIMPLE = none ∨
      EditorBasePanel.add_edge gC4 0 1 EdgeType.SIMPLE =
        some ⟨0, 1, EdgeType.SIMPLE⟩) :=
  C4_add_edge_gesture_policy gC4 0 1 EdgeType.SIMPLE (by decide) (by decide)

/-- Example graph for C5: two plain Z vertices. -/
def gC5 : GraphT where
  verts := {0, 1}
  vtype := fun _ => .Z
  wpartner := fun v => v
  edges := ∅
  phase := fun _ => 0
  qubit := fun _ => 0

/-- Example graph for C5 after one simple edge has been added. -/
def gC5e : GraphT :=
  { gC5 with edges := insert (0, 1, EdgeType.SIMPLE) gC5.edges }

/-- C5 witness: re-adding the simple edge is a no-op and adding a Hadamard
edge between the connected pair is rejected. -/
theorem C5_add_edge_idempotent_and_kind_conflict_witness :
    GraphT.add_edge gC5e 0 1 EdgeType.SIMPLE = Except.ok gC5e ∧
    GraphT.add_edge gC5e 0 1 EdgeType.HADAMARD =
      Except.error EdgeErr.invalidEdge :=
  ⟨C5_add_edge_idempotent_and_kind_conflict.1 gC5 gC5e 0 1 EdgeType.SIMPLE rfl,
   C5_add_edge_idempotent_and_kind_conflict.2 gC5e 0 1 EdgeType.SIMPLE
     EdgeType.HADAMARD (by decide) (by decide) (by decide)⟩

/-- C7: for a generator vertex (not boundary, not W), double-click pushes no
command and leaves the graph untouched when the dialog is cancelled or the
text fails to parse, reports an error exactly on a parse failure, and pushes
exactly one `ChangePhase` command on a successful parse. -/
theorem C7_vert_double_clicked_phase (α : Type) (g : GraphT) (v : ℕ)
    (dialog : String × Bool) (parseFn : String → Option α)
    (hb : g.vtype v ≠ VertexType.BOUNDARY)
    (hw : vertex_is_w (g.vtype v) = false) :
    (EditorBasePanel.vert_double_clicked g v dialog parseFn).2.2 = g ∧
    (EditorBasePanel.vert_double_clicked g v dialog parseFn).1 =
      (if dialog.2 = true then
        (parseFn dialog.1).map (fun p => ChangePhaseCmd.mk v p)
      else none) ∧
    ((EditorBasePanel.vert_double_clicked g v dialog parseFn).2.1 = true ↔
      (dialog.2 = true ∧ parseFn dialog.1 = none)) := by
  unfold EditorBasePanel.vert_double_clicked
  rw [if_neg hb, if_neg (by simp [hw])]
  cases hok : dialog.2 with
  | false =>
    rw [if_pos rfl]
    refine ⟨rfl, ?_, ?_⟩
    · rw [if_neg (by simp)]
    · simp
  | true =>
    rw [if_neg (by simp)]
    cases hp : parseFn dialog.1 with
    | none =>
      refine ⟨rfl, ?_, ?_⟩
      · simp [hp]
      · simp [hp]
    | some p =>
      refine ⟨rfl, ?_, ?_⟩
      · simp [hp]
      · simp [hp]

/-- Example graph for C7: one Z vertex. -/
def gC7 : GraphT where
  verts := {0}
  vtype := fun _ => .Z
  wpartner := fun v => v
  edges := ∅
  phase := fun _ => 0
  qubit := fun _ => 0

/-- C7 witness: a successful parse on the Z vertex of the example graph
pushes exactly the `ChangePhase` command and leaves the graph unchanged. -/
theorem C7_vert_double_clicked_phase_witness :
    (EditorBasePanel.vert_double_clicked gC7 0 ("x", true)
      (fun _ => some (3 : ℕ))).2.2 = gC7 ∧
    (EditorBasePanel.vert_double_clicked gC7 0 ("x", true)
      (fun _ => some (3 : ℕ))).1 =
      (if (("x", true) : String × Bool).2 = true then
        ((fun _ => some (3 : ℕ)) "x").map (fun p => ChangePhaseCmd.mk 0 p)
      else none) ∧
    ((EditorBasePanel.vert_double_clicked gC7 0 ("x", true)
      (fun _ => some (3 : ℕ))).2.1 = true ↔
      ((("x", true) : String × Bool).2 = true ∧
        (fun _ => some (3 : ℕ)) "x" = none)) :=
  C7_vert_double_clicked_phase ℕ gC7 0 ("x", true) (fun _ => some 3)
    (by decide) (by decide)

/-- C8: on a boundary vertex a successfully parsed qubit index is applied
directly to the graph — no command is pushed, no error is shown, only the
qubit field of that one vertex changes. -/
theorem C8_vert_double_clicked_qubit (α : Type) (g : GraphT) (v : ℕ)
    (dialog : String × Bool) (parseFn : String → Option α) (n : ℤ)
    (hb : g.vtype v = VertexType.BOUNDARY)
    (hint : pyIntList dialog.1.data = some n) :
    EditorBasePanel.vert_double_clicked g v dialog parseFn =
      (none, false, g.set_qubit v n) ∧
    (g.set_qubit v n).qubit = Function.update g.qubit v n ∧
    (g.set_qubit v n).qubit v = n ∧
    (g.set_qubit v n).verts = g.verts ∧
    (g.set_qubit v n).vtype = g.vtype ∧
    (g.set_qubit v n).wpartner = g.wpartner ∧
    (g.set_qubit v n).edges = g.edges ∧
    (g.set_qubit v n).phase = g.phase := by
  refine ⟨?_, rfl, ?_, rfl, rfl, rfl, rfl, rfl⟩
  · unfold EditorBasePanel.vert_double_clicked
    rw [if_pos hb, hint]
  · unfold GraphT.set_qubit
    simp

/-- Example graph for C8: one boundary vertex. -/
def gC8 : GraphT where
  verts := {0}
  vtype := fun _ => .BOUNDARY
  wpartner := fun v => v
  edges := ∅
  phase := fun _ => 0
  qubit := fun _ => 0

/-- C8 witness: entering `5` on the boundary vertex of the example graph
updates only its qubit index and pushes nothing. -/
theorem C8_vert_double_clicked_qubit_witness :
    EditorBasePanel.vert_double_clicked gC8 0 ("5", true)
        (fun _ => some (0 : ℕ)) =
      (none, false, gC8.set_qubit 0 5) ∧
    (gC8.set_qubit 0 5).qubit = Function.update gC8.qubit 0 5 ∧
    (gC8.set_qubit 0 5).qubit 0 = 5 ∧
    (gC8.set_qubit 0 5).verts = gC8.verts ∧
    (gC8.set_qubit 0 5).vtype = gC8.vtype ∧
    (gC8.set_qubit 0 5).wpartner = gC8.wpartner ∧
    (gC8.set_qubit 0 5).edges = gC8.edges ∧
    (gC8.set_qubit 0 5).phase = gC8.phase :=
  C8_vert_double_clicked_qubit ℕ gC8 0 ("5", true) (fun _ => some 0) 5
    (by decide) (by decide)
